import Mathlib

/-!
# Verification of the adamcom transport-multiplexing and repeat-scheduling core

Shallow embedding of the input-line parsing, repeat-scheduler and event-loop
timing logic of `src/main.cpp` and `src/io.cpp`, together with theorems that
settle the frozen specification claims.

Conventions:
* C++ strings are modelled as `List Char`; input lines are ASCII.
* `steady_clock` instants and millisecond intervals are modelled as `Int`
  (milliseconds).
* A write result (`ssize_t` of `write`) is modelled as an `Int`; a negative
  value is a failed write. A send is recorded as a `SendAction`.
-/

namespace Adamcom

/-- C `isspace` characters (the classic locale), as used by `std::isspace`
and by `operator>>` tokenization. -/
def isSpaceChar (c : Char) : Bool :=
  c = ' ' || c = '\t' || c = '\n' || c = '\x0b' || c = '\x0c' || c = '\r'

/-- C `isxdigit`. -/
def isHexDigitChar (c : Char) : Bool :=
  ('0' ≤ c && c ≤ '9') || ('a' ≤ c && c ≤ 'f') || ('A' ≤ c && c ≤ 'F')

/-- C `isdigit`. -/
def isDigitChar (c : Char) : Bool :=
  '0' ≤ c && c ≤ '9'

/-- Numeric value of a hex digit. -/
def hexDigitVal (c : Char) : Nat :=
  if '0' ≤ c ∧ c ≤ '9' then c.toNat - '0'.toNat
  else if 'a' ≤ c ∧ c ≤ 'f' then c.toNat - 'a'.toNat + 10
  else c.toNat - 'A'.toNat + 10

/-- Value of a decimal digit string (all characters assumed decimal digits). -/
def digitsToNat (ds : List Char) : Nat :=
  ds.foldl (fun a c => 10 * a + (c.toNat - '0'.toNat)) 0

/-- `std::tolower` on ASCII. -/
def toLowerChar (c : Char) : Char :=
  if 'A' ≤ c ∧ c ≤ 'Z' then Char.ofNat (c.toNat + 32) else c

/-- Value parsed by `std::stoul(tok, nullptr, 16)` from a `0x`-prefixed hex
token: the hex value of the digits after the prefix. -/
def canIdValue (tok : List Char) : Nat :=
  match tok with
  | _ :: _ :: rest => rest.foldl (fun a c => 16 * a + hexDigitVal c) 0
  | _ => 0

/-- `std::stoi`-style parse of an optional-sign decimal prefix; `none` when no
digits are present (the C++ call throws there). -/
def stoiOpt (t : List Char) : Option Int :=
  let core : List Char → Option Nat := fun s =>
    let ds := s.takeWhile isDigitChar
    if ds.isEmpty then none else some (digitsToNat ds)
  match t with
  | '-' :: rest => (core rest).map (fun v => -(v : Int))
  | '+' :: rest => (core rest).map (fun v => (v : Int))
  | _ => (core t).map (fun v => (v : Int))

/-- `is_valid_hex_token` from `main.cpp`: nonempty and all hex digits. -/
def is_valid_hex_token (t : List Char) : Bool :=
  !t.isEmpty && t.all isHexDigitChar

/-- `is_valid_flag` from `main.cpp`: same length and lowercased equality. -/
def is_valid_flag (t : List Char) (expected : List Char) : Bool :=
  t.length = expected.length && t.map toLowerChar = expected

/-- `is_valid_can_id_token` from `main.cpp`: `0x`/`0X` plus one or more hex
digits. -/
def is_valid_can_id_token (t : List Char) : Bool :=
  match t with
  | a :: b :: rest =>
      a = '0' && (b = 'x' || b = 'X') && !rest.isEmpty && rest.all isHexDigitChar
  | _ => false

/-- `is_valid_positive_int` from `main.cpp`: nonempty and all decimal
digits. -/
def is_valid_positive_int (t : List Char) : Bool :=
  !t.isEmpty && t.all isDigitChar

/-- Whitespace tokenization, mirroring repeated `iss >> token`. -/
def splitTokensAux : List Char → List Char → List (List Char)
  | [], cur => if cur.isEmpty then [] else [cur.reverse]
  | c :: rest, cur =>
      if isSpaceChar c then
        if cur.isEmpty then splitTokensAux rest []
        else cur.reverse :: splitTokensAux rest []
      else splitTokensAux rest (c :: cur)

/-- Tokenize an input line on whitespace. -/
def tokenizeLine (s : List Char) : List (List Char) :=
  splitTokensAux s []

/-- `trim` from `main.cpp`: strip leading and trailing whitespace. -/
def trimChars (s : List Char) : List Char :=
  ((s.dropWhile isSpaceChar).reverse.dropWhile isSpaceChar).reverse

/-- `split_first` from `main.cpp`: split at the first space (`' '` only),
trimming the remainder. -/
def splitFirstAux : List Char → List Char → List Char × List Char
  | [], acc => (acc.reverse, [])
  | c :: rest, acc =>
      if c = ' ' then (acc.reverse, trimChars rest)
      else splitFirstAux rest (c :: acc)

/-- `split_first` on a char list. -/
def splitFirst (s : List Char) : List Char × List Char :=
  splitFirstAux s []

/-- Pairwise hex decoding with digit validation, mirroring the loop body of
`parse_hex_bytes` in `io.cpp`. -/
def decodePairs : List Char → Option (List Nat)
  | [] => some []
  | [_] => none
  | hi :: lo :: rest =>
      if isHexDigitChar hi && isHexDigitChar lo then
        (decodePairs rest).map (fun bs => (16 * hexDigitVal hi + hexDigitVal lo) :: bs)
      else none

/-- `parse_hex_bytes` from `io.cpp`: strip whitespace, reject odd length,
decode hex pairs left to right. `none` models the `false` return. -/
def parse_hex_bytes (input : List Char) : Option (List Nat) :=
  let hex := input.filter (fun c => !isSpaceChar c)
  if hex.length % 2 ≠ 0 then none else decodePairs hex

/-- Unvalidated pairwise decoding: "directly pairing hex digits
left-to-right", the reference decoding the specification compares against. -/
def pairDecode : List Char → List Nat
  | hi :: lo :: rest => (16 * hexDigitVal hi + hexDigitVal lo) :: pairDecode rest
  | _ => []

/-! ## Data model: repeat slots, frames, send actions -/

/-- `PresetRepeatState` from `adamcom.hpp`. Instants are `Int` ms. -/
structure PresetRepeatState where
  enabled : Bool
  interval_ms : Int
  next_fire : Int
  deriving Repr, DecidableEq

/-- Startup value of a preset slot (`{}`-initialised in `menu.cpp`). -/
def presetDefault : PresetRepeatState :=
  { enabled := false, interval_ms := 1000, next_fire := 0 }

/-- `InlineRepeatState`, fields as used throughout `main.cpp`. -/
structure InlineRepeatState where
  enabled : Bool
  is_can : Bool
  is_hex : Bool
  can_id : Nat
  data : List Nat
  text_data : List Char
  append_crlf : Bool
  interval_ms : Int
  next_fire : Int
  deriving Repr, DecidableEq

/-- Startup value of the inline slot. -/
def inlineDefault : InlineRepeatState :=
  { enabled := false, is_can := false, is_hex := false, can_id := 0
    data := [], text_data := [], append_crlf := false
    interval_ms := 1000, next_fire := 0 }

/-- A `can_frame` as filled by the core: identifier, dlc, data bytes. -/
structure CanFrame where
  can_id : Nat
  can_dlc : Nat
  frameData : List Nat
  deriving Repr, DecidableEq

/-- One attempted transmission. -/
inductive SendAction where
  | can (f : CanFrame)
  | serial (bytes : List Nat)
  deriving Repr, DecidableEq

/-- Frame constructed by `send_can_bytes` in `io.cpp`: the dlc is clamped to
`min(data.size(), 8)` and only that many bytes are copied. -/
def send_can_bytes_frame (canId : Nat) (data : List Nat) : CanFrame :=
  { can_id := canId
    can_dlc := min data.length 8
    frameData := data.take (min data.length 8) }

/-! ## Hex-mode inline-flag scanner (`main.cpp` lines 1149–1228) -/

/-- The pending-argument state (`skip_reason`). -/
inductive SkipReason where
  | flagId
  | flagT
  deriving Repr, DecidableEq

/-- Accumulated scan results: valid hex tokens, `-id` target, `-r` flag and
`-t` interval (`inline_interval_ms`, default 1000). -/
structure HexScan where
  hexTokens : List (List Char)
  canId : Option Nat
  startRepeat : Bool
  intervalMs : Nat
  deriving Repr, DecidableEq

/-- Initial scanner state. -/
def hexScanInit : HexScan :=
  { hexTokens := [], canId := none, startRepeat := false, intervalMs := 1000 }

/-- The token-classification loop of the hex-mode line handler. An `error`
is the single `parse_error` message reported for the line. -/
def scanHexTokens : List (List Char) → Option SkipReason → HexScan →
    Except String HexScan
  | [], skip, acc =>
      match skip with
      | some .flagId => .error "Missing argument for -id"
      | some .flagT => .error "Missing argument for -t"
      | none => .ok acc
  | tok :: rest, some .flagId, acc =>
      if is_valid_can_id_token tok then
        scanHexTokens rest none { acc with canId := some (canIdValue tok) }
      else .error ("Invalid CAN ID: " ++ String.mk tok ++ " (expected 0xNNN)")
  | tok :: rest, some .flagT, acc =>
      if is_valid_positive_int tok then
        let v := digitsToNat tok
        if v < 10 then .error "Interval must be at least 10ms"
        else scanHexTokens rest none { acc with intervalMs := v }
      else .error ("Invalid interval: " ++ String.mk tok ++ " (expected positive integer)")
  | tok :: rest, none, acc =>
      if is_valid_flag tok ['-', 'i', 'd'] then
        scanHexTokens rest (some .flagId) acc
      else if is_valid_flag tok ['-', 't'] then
        scanHexTokens rest (some .flagT) acc
      else if is_valid_flag tok ['-', 'r'] then
        scanHexTokens rest none { acc with startRepeat := true }
      else if tok.head? = some '-' then
        .error ("Invalid flag: " ++ String.mk tok ++ " (valid: -r, -t MS, -id 0xNNN)")
      else if is_valid_hex_token tok then
        scanHexTokens rest none { acc with hexTokens := acc.hexTokens ++ [tok] }
      else
        .error ("Invalid hex byte: " ++ String.mk tok ++ " (only 0-9, A-F allowed)")

/-- Scan of a whole hex-mode line. -/
def hexScanOf (line : List Char) : Except String HexScan :=
  scanHexTokens (tokenizeLine line) none hexScanInit

/-- Rebuild `hex_part` by joining the collected hex tokens with spaces. -/
def joinSpaces : List (List Char) → List Char
  | [] => []
  | [t] => t
  | t :: rest => t ++ ' ' :: joinSpaces rest

/-! ## Hex-mode line handler (`main.cpp` lines 1142–1336) -/

/-- Result of handling one input line: the inline slot after the call, the
attempted transmissions, and the diagnostic message, if any. -/
structure LineOutcome where
  inl : InlineRepeatState
  sends : List SendAction
  err : Option String
  deriving Repr, DecidableEq

/-- The data bytes the hex-mode handler works with: the joined hex tokens run
through `parse_hex_bytes` (an empty `hex_part` leaves the byte vector
empty). -/
def hexDataOf (scan : HexScan) : Option (List Nat) :=
  let hexPart := joinSpaces scan.hexTokens
  if hexPart.isEmpty then some [] else parse_hex_bytes hexPart

/-- The send/arm stage of the hex-mode handler, after scanning and hex
decoding succeeded with nonempty data. -/
def hexDispatch (scan : HexScan) (data : List Nat) (cfgCanId : Nat)
    (isCan : Bool) (inl : InlineRepeatState) (now : Int) (writeResult : Int) :
    LineOutcome :=
  if isCan then
            if data.length > 8 then
              ⟨inl, [], some "CAN data max 8 bytes"⟩
            else
              let fid := scan.canId.getD cfgCanId
              let frame : CanFrame := ⟨fid, data.length, data⟩
              if scan.startRepeat then
                let inl' := { inl with
                  enabled := true, is_can := true, is_hex := true
                  can_id := fid, data := data
                  interval_ms := (scan.intervalMs : Int)
                  next_fire := now + (scan.intervalMs : Int) }
                if writeResult < 0 then
                  ⟨{ inl' with enabled := false }, [.can frame], some "Write error"⟩
                else ⟨inl', [.can frame], none⟩
              else
                ⟨inl, [.can frame],
                  if writeResult < 0 then some "Write error" else none⟩
          else
            if scan.startRepeat then
              let inl' := { inl with
                enabled := true, is_can := false, is_hex := true
                data := data
                interval_ms := (scan.intervalMs : Int)
                next_fire := now + (scan.intervalMs : Int) }
              if writeResult < 0 then
                ⟨{ inl' with enabled := false }, [.serial data], some "Write error"⟩
              else ⟨inl', [.serial data], none⟩
            else
              ⟨inl, [.serial data],
                if writeResult < 0 then some "Write error" else none⟩

/-- The hex-mode branch of `g_line_handler` (line does not start with `/`,
`mode == "hex"`): scan the tokens, decode the hex part, then send or arm. -/
def hexModeLine (line : List Char) (cfgCanId : Nat) (isCan : Bool)
    (inl : InlineRepeatState) (now : Int) (writeResult : Int) : LineOutcome :=
  match hexScanOf line with
  | .error msg => ⟨inl, [], some msg⟩
  | .ok scan =>
      match hexDataOf scan with
      | none => ⟨inl, [], some "Invalid hex format"⟩
      | some data =>
          if data.isEmpty then ⟨inl, [], some "No data to send"⟩
          else hexDispatch scan data cfgCanId isCan inl now writeResult

/-! ## Text-mode line handler (`main.cpp` lines 1096–1136) -/

/-- Result of the text-mode branch; `warned` records the CAN truncation
warning. -/
structure TextLineOut where
  sends : List SendAction
  warned : Bool
  err : Option String
  deriving Repr, DecidableEq

/-- The text-mode branch of `g_line_handler` (line does not start with `/`,
`mode != "hex"`). -/
def textModeLine (line : List Char) (isCan : Bool) (cfgCanId : Nat)
    (appendCrlf : Bool) (writeResult : Int) : TextLineOut :=
  if isCan then
    let warned := decide (line.length > 8)
    let text := if line.length > 8 then line.take 8 else line
    ⟨[.can ⟨cfgCanId, text.length, text.map Char.toNat⟩], warned,
      if writeResult < 0 then some "Write error" else none⟩
  else
    let msg := line ++ (if appendCrlf then ['\r', '\n'] else [])
    ⟨[.serial (msg.map Char.toNat)], false,
      if writeResult < 0 then some "Write error" else none⟩

/-! ## The `/p` command handler (`main.cpp` lines 846–903) -/

/-- Flags collected by the `/p` argument loop: `start_repeat`, `stop_repeat`
and `custom_interval` (initially `-1`). -/
structure PFlags where
  startR : Bool
  stopR : Bool
  custom : Int
  deriving Repr, DecidableEq

/-- The flag loop over `tokens[1..]`: `-r`, `-nr`, and `-t MS` (the `-t`
argument is consumed; a failed `stoi` leaves `custom_interval` unchanged;
a trailing `-t` with no argument is ignored). -/
def scanPFlags : List (List Char) → PFlags → PFlags
  | [], f => f
  | t :: rest, f =>
      let tl := t.map toLowerChar
      if tl = ['-', 'r'] then scanPFlags rest { f with startR := true }
      else if tl = ['-', 'n', 'r'] then scanPFlags rest { f with stopR := true }
      else if tl = ['-', 't'] then
        match rest with
        | [] => f
        | nxt :: rest' =>
            scanPFlags rest' { f with custom := (stoiOpt nxt).getD f.custom }
      else scanPFlags rest f

/-- In-place update of the `i`-th list element. -/
def updateAt : Nat → (α → α) → List α → List α
  | _, _, [] => []
  | 0, f, x :: xs => f x :: xs
  | n + 1, f, x :: xs => x :: updateAt n f xs

/-- Result of the `/p` handler: the ten preset slots, the inline slot, the
number of immediate `send_preset` calls performed, and the message. -/
structure PCmdOut where
  presets : List PresetRepeatState
  inl : InlineRepeatState
  sends : Nat
  err : Option String
  deriving Repr, DecidableEq

/-- Arm a preset slot as the `/p N -r [-t MS]` branch does: enable, apply a
positive custom interval, and set `next_fire = now + interval_ms`. -/
def armPresetSlot (custom : Int) (now : Int) (s : PresetRepeatState) :
    PresetRepeatState :=
  let iv := if custom > 0 then custom else s.interval_ms
  { s with enabled := true, interval_ms := iv, next_fire := now + iv }

/-- The `/p` command handler over its tokenized argument. -/
def pCommandTokens (presets : List PresetRepeatState) (inl : InlineRepeatState)
    (toks : List (List Char)) (now : Int) : PCmdOut :=
  match toks with
  | [] => ⟨presets, inl, 0, some "Usage: /p N [-r [-t MS]] [-nr]"⟩
  | t0 :: rest =>
      let idx : Int := (stoiOpt t0).getD 0
      if idx < 1 ∨ idx > 10 then
        ⟨presets, inl, 0, some "Usage: /p N (1-10)"⟩
      else
        let f := scanPFlags rest ⟨false, false, -1⟩
        let i := (idx - 1).toNat
        if f.stopR then
          ⟨updateAt i (fun s => { s with enabled := false }) presets, inl, 0, none⟩
        else if f.startR then
          ⟨updateAt i (armPresetSlot f.custom now) presets, inl, 0, none⟩
        else ⟨presets, inl, 1, none⟩

/-- The `/p` handler on a raw argument string. -/
def pCommand (presets : List PresetRepeatState) (inl : InlineRepeatState)
    (arg : List Char) (now : Int) : PCmdOut :=
  pCommandTokens presets inl (tokenizeLine arg) now

/-! ## The `/rpt` command handler (`main.cpp` lines 988–1072) -/

/-- The `/rpt MS text` handler. `cfgCanId` is the resolved `cfg["can_id"]`;
`writeResult` the result of the single immediate `write`. -/
def rptCommand (inl : InlineRepeatState) (arg : List Char) (isCan : Bool)
    (cfgCanId : Nat) (appendCrlf : Bool) (now : Int) (writeResult : Int) :
    LineOutcome :=
  if arg.isEmpty then ⟨inl, [], some "Usage: /rpt MS text"⟩
  else
    let parts := splitFirst arg
    let msStr := parts.1
    let text := parts.2
    if ¬ is_valid_positive_int msStr then
      ⟨inl, [], some "First argument must be interval in milliseconds."⟩
    else if text.isEmpty then ⟨inl, [], some "No text to repeat."⟩
    else
      let intervalMs := digitsToNat msStr
      if intervalMs < 10 then ⟨inl, [], some "Interval must be at least 10ms."⟩
      else
        let base := { inl with
          enabled := true, is_can := isCan, is_hex := false
          text_data := text, append_crlf := appendCrlf
          interval_ms := (intervalMs : Int)
          next_fire := now + (intervalMs : Int) }
        if isCan then
          let text8 := if text.length > 8 then text.take 8 else text
          let inl1 := { base with can_id := cfgCanId, text_data := text8 }
          let send := SendAction.can ⟨cfgCanId, text8.length, text8.map Char.toNat⟩
          if writeResult < 0 then
            ⟨{ inl1 with enabled := false }, [send], some "Write error"⟩
          else ⟨inl1, [send], none⟩
        else
          let msg := text ++ (if appendCrlf then ['\r', '\n'] else [])
          let send := SendAction.serial (msg.map Char.toNat)
          if writeResult < 0 then
            ⟨{ base with enabled := false }, [send], some "Write error"⟩
          else ⟨base, [send], none⟩

/-! ## The `/hex` command handler (`main.cpp` lines 904–919) -/

/-- The `/hex XX XX ...` handler. On CAN it passes the parsed bytes straight
to `send_can_bytes` with no size check. -/
def hexCommand (arg : List Char) (isCan : Bool) (cfgCanId : Nat) :
    List SendAction × Option String :=
  match parse_hex_bytes arg with
  | none => ([], some "Usage: /hex XX XX XX ...")
  | some data =>
      if data.isEmpty then ([], some "Usage: /hex XX XX XX ...")
      else if isCan then ([.can (send_can_bytes_frame cfgCanId data)], none)
      else ([.serial data], none)

/-! ## Event-loop timeout computation (`main.cpp` lines 1390–1417) -/

/-- The inline-slot contribution to the poll timeout, starting from the
100 ms baseline. -/
def inlineTimeout (inl : InlineRepeatState) (now : Int) (t0 : Int) : Int :=
  if inl.enabled then
    let diff := inl.next_fire - now
    if diff ≤ 0 then 0 else min t0 diff
  else t0

/-- The preset-slot loop over the ten slots, with the early `break` when a
slot is already due. -/
def presetTimeoutLoop : List PresetRepeatState → Int → Int → Int
  | [], _, t => t
  | s :: rest, now, t =>
      if s.enabled then
        let diff := s.next_fire - now
        if diff ≤ 0 then 0
        else presetTimeoutLoop rest now (min t diff)
      else presetTimeoutLoop rest now t

/-- `timeout_ms` as computed each `Running` iteration. -/
def computeTimeout (inl : InlineRepeatState) (presets : List PresetRepeatState)
    (now : Int) : Int :=
  presetTimeoutLoop presets now (inlineTimeout inl now 100)

/-- Specification-side deadlines: `(next_fire - now)` clamped to zero, for
every enabled slot. -/
def clampedDeadlines (inl : InlineRepeatState) (presets : List PresetRepeatState)
    (now : Int) : List Int :=
  (if inl.enabled then [max (inl.next_fire - now) 0] else []) ++
    (presets.filter (fun s => s.enabled)).map (fun s => max (s.next_fire - now) 0)

/-- Specification-side timeout: minimum of the clamped deadlines, bounded
above by the 100 ms baseline (and the baseline itself when nothing is
enabled). -/
def specTimeout (inl : InlineRepeatState) (presets : List PresetRepeatState)
    (now : Int) : Int :=
  (clampedDeadlines inl presets now).foldr min 100

/-! ## Firing due slots at a wakeup (`main.cpp` lines 1433–1501) -/

/-- Identity of a repeat slot; presets carry their 1-based number. -/
inductive SlotId where
  | inl
  | preset (n : Nat)
  deriving Repr, DecidableEq

/-- One fire: the slot that fired and whether its send succeeded. -/
abbrev FireEvent := SlotId × Bool

/-- Whether a preset slot is due at `now` (`enabled && now >= next_fire`). -/
def dueP (now : Int) (s : PresetRepeatState) : Bool :=
  s.enabled && decide (s.next_fire ≤ now)

/-- Whether the inline slot is due at `now`. -/
def dueI (now : Int) (inl : InlineRepeatState) : Bool :=
  inl.enabled && decide (inl.next_fire ≤ now)

/-- The preset firing loop (`for i = 0..9`), producing the updated slots and
the fire events in slot order. `i0` is the number of slots already passed;
`sendOk n` models the `send_preset` result for preset number `n`. -/
def firePresetsAux (now : Int) (sendOk : Nat → Bool) :
    List PresetRepeatState → Nat → List PresetRepeatState × List FireEvent
  | [], _ => ([], [])
  | s :: rest, i0 =>
      let r := firePresetsAux now sendOk rest (i0 + 1)
      if dueP now s then
        ({ s with next_fire := now + s.interval_ms } :: r.1,
          (SlotId.preset (i0 + 1), sendOk (i0 + 1)) :: r.2)
      else (s :: r.1, r.2)

/-- Result of the firing pass of one wakeup. -/
structure FireOut where
  inl : InlineRepeatState
  presets : List PresetRepeatState
  events : List FireEvent
  deriving Repr, DecidableEq

/-- The firing pass of one wakeup: the inline slot first, then presets 1..10
in ascending order. Each due slot fires once and is re-armed with
`next_fire = now + interval_ms`. -/
def fireDue (inl : InlineRepeatState) (presets : List PresetRepeatState)
    (now : Int) (inlOk : Bool) (sendOk : Nat → Bool) : FireOut :=
  let inlPart : InlineRepeatState × List FireEvent :=
    if dueI now inl then
      ({ inl with next_fire := now + inl.interval_ms }, [(SlotId.inl, inlOk)])
    else (inl, [])
  let presetPart := firePresetsAux now sendOk presets 0
  ⟨inlPart.1, presetPart.1, inlPart.2 ++ presetPart.2⟩

/-- Specification-side list of the 1-based numbers of the due preset slots,
in ascending order. -/
def dueNums (now : Int) : List PresetRepeatState → Nat → List Nat
  | [], _ => []
  | s :: rest, i0 =>
      if dueP now s then (i0 + 1) :: dueNums now rest (i0 + 1)
      else dueNums now rest (i0 + 1)

/-- Specification-side per-slot re-arm: a due slot is re-armed from the
firing instant, any other slot is untouched. -/
def rearmSlot (now : Int) (s : PresetRepeatState) : PresetRepeatState :=
  if dueP now s then { s with next_fire := now + s.interval_ms } else s

/-- Example inline slot: enabled and due at instant 5. -/
def exInline : InlineRepeatState :=
  { inlineDefault with enabled := true, next_fire := 0, interval_ms := 50 }

/-- Example preset slots: preset 1 enabled and due at instant 5, the others
disabled. -/
def exPresets : List PresetRepeatState :=
  updateAt 0 (fun s => { s with enabled := true, next_fire := 0, interval_ms := 30 })
    (List.replicate 10 presetDefault)

/-- A token list contains a `-id` flag that is not followed by a valid
`0x…` CAN-identifier token (including a trailing `-id`). -/
def hasBadId : List (List Char) → Bool
  | [] => false
  | tok :: rest =>
      (is_valid_flag tok ['-', 'i', 'd'] &&
        (match rest with
         | [] => true
         | nxt :: _ => !is_valid_can_id_token nxt)) || hasBadId rest

/-! ## Helper lemmas -/

lemma foldr_min_le (l : List Int) (b : Int) : l.foldr min b ≤ b := by
  induction l with
  | nil => exact le_refl b
  | cons x xs ih => exact le_trans (min_le_right x _) ih

lemma foldr_min_nonneg (l : List Int) (b : Int) (hb : 0 ≤ b)
    (hl : ∀ x ∈ l, 0 ≤ x) : 0 ≤ l.foldr min b := by
  induction l with
  | nil => exact hb
  | cons x xs ih =>
      exact le_min (hl x (by simp)) (ih (fun y hy => hl y (List.mem_cons_of_mem x hy)))

lemma foldr_min_min (l : List Int) (a b : Int) :
    l.foldr min (min a b) = min a (l.foldr min b) := by
  induction l with
  | nil => rfl
  | cons x xs ih => simp only [List.foldr_cons, ih, min_left_comm]

/-- The preset timeout loop computes the fold of the clamped deadlines of the
enabled slots over its starting value. -/
lemma presetTimeoutLoop_eq (now : Int) (l : List PresetRepeatState) (t : Int)
    (ht : 0 ≤ t) :
    presetTimeoutLoop l now t =
      ((l.filter (fun s => s.enabled)).map
        (fun s => max (s.next_fire - now) 0)).foldr min t := by
  induction l generalizing t with
  | nil => rfl
  | cons s rest ih =>
      by_cases hs : s.enabled
      · simp only [presetTimeoutLoop, hs, if_true, List.filter_cons_of_pos,
          List.map_cons, List.foldr_cons]
        by_cases hd : s.next_fire - now ≤ 0
        · rw [if_pos hd]
          have hmax : max (s.next_fire - now) 0 = 0 := max_eq_right hd
          rw [hmax]
          have hnn : 0 ≤ ((rest.filter (fun s => s.enabled)).map
              (fun s => max (s.next_fire - now) 0)).foldr min t := by
            refine foldr_min_nonneg _ _ ht ?_
            intro x hx
            rcases List.mem_map.mp hx with ⟨u, _, hu⟩
            exact hu ▸ le_max_right _ 0
          exact (min_eq_left hnn).symm
        · push_neg at hd
          rw [if_neg (not_le.mpr hd)]
          have hmax : max (s.next_fire - now) 0 = s.next_fire - now :=
            max_eq_left (le_of_lt hd)
          rw [hmax, ih (min t (s.next_fire - now)) (le_min ht (le_of_lt hd)),
            min_comm t (s.next_fire - now), foldr_min_min]
      · have hs' : s.enabled = false := Bool.eq_false_iff.mpr hs
        simp only [presetTimeoutLoop, hs', Bool.false_eq_true, if_false,
          List.filter_cons, ih t ht]

/-- The inline contribution equals folding the inline clamped deadline into
the baseline. -/
lemma inlineTimeout_eq (inl : InlineRepeatState) (now : Int) :
    inlineTimeout inl now 100 =
      ((if inl.enabled then [max (inl.next_fire - now) 0] else []).foldr min 100) := by
  unfold inlineTimeout
  by_cases he : inl.enabled
  · simp only [he, if_true, List.foldr_cons, List.foldr_nil]
    by_cases hd : inl.next_fire - now ≤ 0
    · rw [if_pos hd, max_eq_right hd]
      exact (min_eq_left (by norm_num)).symm
    · push_neg at hd
      rw [if_neg (not_le.mpr hd), max_eq_left (le_of_lt hd), min_comm]
  · simp [he]

/-- C8: on every `Running` iteration the poll timeout equals the minimum over
all enabled slots of `(next_fire - now)` clamped to zero, bounded above by the
100 ms baseline; with no enabled slot it is the baseline; it never exceeds
100 ms. -/
theorem poll_timeout_is_clamped_min_deadline (inl : InlineRepeatState)
    (presets : List PresetRepeatState) (now : Int) :
    computeTimeout inl presets now = specTimeout inl presets now ∧
    computeTimeout inl presets now ≤ 100 ∧
    (clampedDeadlines inl presets now = [] →
      computeTimeout inl presets now = 100) := by
  have hmain : computeTimeout inl presets now = specTimeout inl presets now := by
    unfold computeTimeout specTimeout clampedDeadlines
    have h0 : (0 : Int) ≤ inlineTimeout inl now 100 := by
      rw [inlineTimeout_eq]
      refine foldr_min_nonneg _ _ (by norm_num) ?_
      intro x hx
      by_cases he : inl.enabled <;> simp [he] at hx
      exact hx ▸ le_max_right _ 0
    rw [presetTimeoutLoop_eq now presets _ h0, inlineTimeout_eq,
      List.foldr_append]
    by_cases he : inl.enabled
    · simp only [he, if_true, List.foldr_cons, List.foldr_nil, foldr_min_min]
    · have he' : inl.enabled = false := Bool.eq_false_iff.mpr he
      simp only [he', Bool.false_eq_true, if_false, List.foldr_nil]
  refine ⟨hmain, ?_, ?_⟩
  · rw [hmain]
    exact foldr_min_le _ _
  · intro hnil
    rw [hmain]
    unfold specTimeout
    rw [hnil]
    rfl

/-- The preset firing loop re-arms exactly the due slots, each from the
firing instant. -/
lemma firePresetsAux_fst (now : Int) (ok : Nat → Bool)
    (l : List PresetRepeatState) (i0 : Nat) :
    (firePresetsAux now ok l i0).1 = l.map (rearmSlot now) := by
  induction l generalizing i0 with
  | nil => rfl
  | cons s rest ih =>
      by_cases h : dueP now s <;>
        simp [firePresetsAux, rearmSlot, h, ih]

/-- The preset firing loop produces one event per due slot, in ascending
slot order, each carrying that slot's own send result. -/
lemma firePresetsAux_snd (now : Int) (ok : Nat → Bool)
    (l : List PresetRepeatState) (i0 : Nat) :
    (firePresetsAux now ok l i0).2 =
      (dueNums now l i0).map (fun n => (SlotId.preset n, ok n)) := by
  induction l generalizing i0 with
  | nil => rfl
  | cons s rest ih =>
      by_cases h : dueP now s <;>
        simp [firePresetsAux, dueNums, h, ih]

/-- Every due-slot number is strictly greater than the running offset. -/
lemma mem_dueNums_gt (now : Int) (l : List PresetRepeatState) :
    ∀ i0 x, x ∈ dueNums now l i0 → i0 < x := by
  induction l with
  | nil => intro i0 x hx; simp [dueNums] at hx
  | cons s rest ih =>
      intro i0 x hx
      by_cases h : dueP now s
      · simp only [dueNums, h, if_true, List.mem_cons] at hx
        rcases hx with rfl | hx
        · exact Nat.lt_succ_self i0
        · exact Nat.lt_of_succ_lt (ih (i0 + 1) x hx)
      · simp only [dueNums, h, if_false] at hx
        exact Nat.lt_of_succ_lt (ih (i0 + 1) x hx)

/-- The due-slot numbers are strictly ascending. -/
lemma dueNums_pairwise (now : Int) (l : List PresetRepeatState) (i0 : Nat) :
    (dueNums now l i0).Pairwise (· < ·) := by
  induction l generalizing i0 with
  | nil => exact List.Pairwise.nil
  | cons s rest ih =>
      by_cases h : dueP now s
      · simp only [dueNums, h, if_true]
        exact List.pairwise_cons.mpr
          ⟨fun x hx => mem_dueNums_gt now rest (i0 + 1) x hx, ih (i0 + 1)⟩
      · simp only [dueNums, h, if_false]
        exact ih (i0 + 1)

/-- Membership in the due-slot list characterizes exactly the due slots. -/
lemma mem_dueNums_iff (now : Int) (l : List PresetRepeatState) :
    ∀ i0 i, (i0 + i + 1) ∈ dueNums now l i0 ↔
      ∃ s, l[i]? = some s ∧ dueP now s = true := by
  induction l with
  | nil => intro i0 i; simp [dueNums]
  | cons s rest ih =>
      intro i0 i
      cases i with
      | zero =>
          by_cases h : dueP now s
          · simp only [dueNums, h, if_true, Nat.add_zero, List.mem_cons]
            constructor
            · intro _; exact ⟨s, by simp, h⟩
            · intro _; exact Or.inl trivial
          · simp only [dueNums, h, if_false, Nat.add_zero]
            constructor
            · intro hx
              exact absurd (mem_dueNums_gt now rest (i0 + 1) _ hx)
                (by omega)
            · rintro ⟨u, hu, hdu⟩
              simp only [List.getElem?_cons_zero, Option.some.injEq] at hu
              exact absurd (hu ▸ hdu) (by simp [h])
      | succ j =>
          have hrw : i0 + (j + 1) + 1 = (i0 + 1) + j + 1 := by omega
          by_cases h : dueP now s
          · simp only [dueNums, h, if_true, List.mem_cons]
            rw [hrw]
            constructor
            · intro hx
              rcases hx with heq | hx
              · omega
              · simpa using (ih (i0 + 1) j).mp hx
            · intro hx
              exact Or.inr ((ih (i0 + 1) j).mpr (by simpa using hx))
          · simp only [dueNums, h, if_false]
            rw [hrw]
            exact (ih (i0 + 1) j).trans (by simp)

/-- `SlotId.preset` is injective. -/
lemma slotPreset_injective : Function.Injective SlotId.preset := by
  intro a b h
  cases h
  rfl

/-- C4 counterexample: with the inline slot and preset 1 both due at the same
wakeup, the code fires the inline slot FIRST and preset 1 after it — not
presets 1..10 first with the inline slot last, as the claim states. -/
theorem simultaneous_fire_order_cex :
    ((fireDue exInline exPresets 5 true (fun _ => true)).events.map Prod.fst
      = [SlotId.inl, SlotId.preset 1]) ∧
    [SlotId.inl, SlotId.preset 1] ≠ [SlotId.preset 1, SlotId.inl] := by
  constructor
  · decide
  · decide

/-- C4 (amended): when several slots are due at one wakeup, the inline slot
fires first (when due) and then the due presets in ascending slot order
1..10; each event carries its own slot's send result, and which slots fire is
independent of any slot's send failure. -/
theorem simultaneous_fire_order (inl : InlineRepeatState)
    (presets : List PresetRepeatState) (now : Int) (a : Bool) (b : Nat → Bool) :
    (fireDue inl presets now a b).events =
      (if dueI now inl then [(SlotId.inl, a)] else []) ++
        (dueNums now presets 0).map (fun n => (SlotId.preset n, b n)) ∧
    (dueNums now presets 0).Pairwise (· < ·) := by
  refine ⟨?_, dueNums_pairwise now presets 0⟩
  unfold fireDue
  by_cases h : dueI now inl
  · simp [h, firePresetsAux_snd]
  · have h' : dueI now inl = false := Bool.eq_false_iff.mpr h
    simp [h', firePresetsAux_snd]

/-- The slot identities fired at a wakeup, in order. -/
lemma fireDue_slots (inl : InlineRepeatState) (presets : List PresetRepeatState)
    (now : Int) (a : Bool) (b : Nat → Bool) :
    (fireDue inl presets now a b).events.map Prod.fst =
      (if dueI now inl then [SlotId.inl] else []) ++
        (dueNums now presets 0).map SlotId.preset := by
  unfold fireDue
  by_cases h : dueI now inl
  · simp [h, firePresetsAux_snd, Function.comp]
  · have h' : dueI now inl = false := Bool.eq_false_iff.mpr h
    simp [h', firePresetsAux_snd, Function.comp]

/-- C7: at each wakeup, every enabled slot whose deadline has passed fires
exactly once and is re-armed with `next_fire = now + interval_ms`, measured
from the firing instant; slots that are not due are untouched, and no slot
appears twice among the fired events. -/
theorem due_slots_fire_once_rearm_from_now (inl : InlineRepeatState)
    (presets : List PresetRepeatState) (now : Int) (a : Bool) (b : Nat → Bool) :
    (fireDue inl presets now a b).inl =
      (if dueI now inl then { inl with next_fire := now + inl.interval_ms }
        else inl) ∧
    (∀ i : Nat, ((fireDue inl presets now a b).presets)[i]? =
      (presets[i]?).map (rearmSlot now)) ∧
    ((fireDue inl presets now a b).events.map Prod.fst).Nodup ∧
    (SlotId.inl ∈ (fireDue inl presets now a b).events.map Prod.fst ↔
      dueI now inl = true) ∧
    (∀ i : Nat,
      SlotId.preset (i + 1) ∈ (fireDue inl presets now a b).events.map Prod.fst ↔
        ∃ s, presets[i]? = some s ∧ dueP now s = true) := by
  have hslots := fireDue_slots inl presets now a b
  have hinl_notin : SlotId.inl ∉ (dueNums now presets 0).map SlotId.preset := by
    intro hmem
    rcases List.mem_map.mp hmem with ⟨n, _, hn⟩
    exact SlotId.noConfusion hn
  refine ⟨?_, ?_, ?_, ?_, ?_⟩
  · unfold fireDue
    by_cases h : dueI now inl
    · simp [h]
    · have h' : dueI now inl = false := Bool.eq_false_iff.mpr h
      simp [h']
  · intro i
    have : (fireDue inl presets now a b).presets = presets.map (rearmSlot now) := by
      unfold fireDue
      simp [firePresetsAux_fst]
    rw [this, List.getElem?_map]
  · rw [hslots]
    have hnd : ((dueNums now presets 0).map SlotId.preset).Nodup := by
      refine List.Nodup.map slotPreset_injective ?_
      exact (dueNums_pairwise now presets 0).imp (fun h => Nat.ne_of_lt h)
    by_cases h : dueI now inl
    · simp only [h, if_true, List.singleton_append]
      exact List.Nodup.cons hinl_notin hnd
    · have h' : dueI now inl = false := Bool.eq_false_iff.mpr h
      simpa [h'] using hnd
  · rw [hslots]
    by_cases h : dueI now inl
    · simp [h]
    · have h' : dueI now inl = false := Bool.eq_false_iff.mpr h
      simp only [h', Bool.false_eq_true, if_false, List.nil_append]
      constructor
      · intro hmem
        exact absurd hmem hinl_notin
      · intro hfalse
        exact absurd hfalse (by simp)
  · intro i
    rw [hslots]
    have hstep : SlotId.preset (i + 1) ∈
        (if dueI now inl then [SlotId.inl] else []) ++
          (dueNums now presets 0).map SlotId.preset ↔
        (i + 1) ∈ dueNums now presets 0 := by
      rw [List.mem_append]
      constructor
      · intro hmem
        rcases hmem with hmem | hmem
        · by_cases h : dueI now inl
          · simp only [h, if_true, List.mem_singleton] at hmem
            exact absurd hmem (by simp)
          · have h' : dueI now inl = false := Bool.eq_false_iff.mpr h
            simp [h'] at hmem
        · rcases List.mem_map.mp hmem with ⟨n, hn, heq⟩
          have : n = i + 1 := slotPreset_injective heq
          exact this ▸ hn
      · intro hmem
        exact Or.inr (List.mem_map.mpr ⟨i + 1, hmem, rfl⟩)
    rw [hstep]
    simpa using mem_dueNums_iff now presets 0 i

/-! ## Character classification lemmas -/

/-- Lowercasing a hex digit never yields `'-'`. -/
lemma hexDigit_toLower_ne_dash {c : Char} (h : isHexDigitChar c = true) :
    toLowerChar c ≠ '-' := by
  intro heq
  unfold toLowerChar at heq
  split at heq
  case isTrue hAZ =>
    simp only [isHexDigitChar, Bool.or_eq_true, Bool.and_eq_true,
      decide_eq_true_eq] at h
    have hA : 'A' ≤ c := hAZ.1
    have hF : c ≤ 'F' := by
      rcases h with (⟨_, h9⟩ | ⟨ha, _⟩) | ⟨_, hF⟩
      · exact absurd (Char.le_trans hA h9) (by decide)
      · exact absurd (Char.le_trans ha hAZ.2) (by decide)
      · exact hF
    have h1 : 65 ≤ c.toNat := hA
    have h2 : c.toNat ≤ 70 := hF
    have hcases : c.toNat = 65 ∨ c.toNat = 66 ∨ c.toNat = 67 ∨ c.toNat = 68 ∨
        c.toNat = 69 ∨ c.toNat = 70 := by omega
    rcases hcases with hc | hc | hc | hc | hc | hc <;>
      · rw [hc] at heq
        exact absurd heq (by decide)
  case isFalse =>
    rw [heq] at h
    exact absurd h (by decide)

/-- Lowercasing a decimal digit never yields `'-'`. -/
lemma digit_toLower_ne_dash {c : Char} (h : isDigitChar c = true) :
    toLowerChar c ≠ '-' := by
  intro heq
  simp only [isDigitChar, Bool.and_eq_true, decide_eq_true_eq] at h
  have hAZ : ¬ ('A' ≤ c ∧ c ≤ 'Z') := by
    rintro ⟨hA, _⟩
    exact absurd (Char.le_trans hA h.2) (by decide)
  rw [toLowerChar, if_neg hAZ] at heq
  rw [heq] at h
  exact absurd h.1 (by decide)

/-- A hex digit is never a whitespace character. -/
lemma hexDigit_not_space {c : Char} (h : isHexDigitChar c = true) :
    isSpaceChar c = false := by
  by_contra hs
  have hs' : isSpaceChar c = true := by
    cases hx : isSpaceChar c
    · exact absurd hx hs
    · rfl
  simp only [isSpaceChar, Bool.or_eq_true, decide_eq_true_eq] at hs'
  have hcases : c = ' ' ∨ c = '\t' ∨ c = '\n' ∨ c = '\x0b' ∨ c = '\x0c' ∨
      c = '\r' := by tauto
  rcases hcases with rfl | rfl | rfl | rfl | rfl | rfl <;>
    exact absurd h (by decide)

/-! ## Token classification lemmas -/

/-- A token of hex digits never matches a flag whose spelling starts with
`'-'`. -/
lemma allHex_not_flag {t e : List Char} (h : is_valid_hex_token t = true)
    (he : e.head? = some '-') : is_valid_flag t e = false := by
  by_contra hf
  have hf' : is_valid_flag t e = true := by
    cases hx : is_valid_flag t e
    · exact absurd hx hf
    · rfl
  simp only [is_valid_flag, Bool.and_eq_true, decide_eq_true_eq] at hf'
  simp only [is_valid_hex_token, Bool.and_eq_true, List.all_eq_true] at h
  obtain ⟨hne, hall⟩ := h
  cases t with
  | nil => simp at hne
  | cons a rest =>
      have hmap : toLowerChar a :: rest.map toLowerChar = e := by
        simpa using hf'.2
      have hhead : e.head? = some (toLowerChar a) := by
        rw [← hmap]; rfl
      rw [he] at hhead
      have heq : toLowerChar a = '-' := by
        simpa using hhead.symm
      exact hexDigit_toLower_ne_dash (hall a (by simp)) heq

/-- A token of hex digits never starts with `'-'`. -/
lemma allHex_head_ne_dash {t : List Char} (h : is_valid_hex_token t = true) :
    ¬ t.head? = some '-' := by
  intro he
  simp only [is_valid_hex_token, Bool.and_eq_true, List.all_eq_true] at h
  obtain ⟨hne, hall⟩ := h
  cases t with
  | nil => simp at he
  | cons a rest =>
      have ha : a = '-' := by simpa using he
      have := hall a (by simp)
      rw [ha] at this
      exact absurd this (by decide)

/-- A token of decimal digits never matches the `-id` flag spelling. -/
lemma posInt_not_flag_id {t : List Char} (h : is_valid_positive_int t = true) :
    is_valid_flag t ['-', 'i', 'd'] = false := by
  by_contra hf
  have hf' : is_valid_flag t ['-', 'i', 'd'] = true := by
    cases hx : is_valid_flag t ['-', 'i', 'd']
    · exact absurd hx hf
    · rfl
  simp only [is_valid_flag, Bool.and_eq_true, decide_eq_true_eq] at hf'
  simp only [is_valid_positive_int, Bool.and_eq_true, List.all_eq_true] at h
  obtain ⟨hne, hall⟩ := h
  cases t with
  | nil => simp at hne
  | cons a rest =>
      have hmap : toLowerChar a :: rest.map toLowerChar = ['-', 'i', 'd'] := by
        simpa using hf'.2
      have heq : toLowerChar a = '-' := by
        have := congrArg List.head? hmap
        simpa using this
      exact digit_toLower_ne_dash (hall a (by simp)) heq

/-- A valid `0x…` CAN-identifier token never matches the `-id` flag
spelling. -/
lemma canId_not_flag_id {t : List Char} (h : is_valid_can_id_token t = true) :
    is_valid_flag t ['-', 'i', 'd'] = false := by
  by_contra hf
  have hf' : is_valid_flag t ['-', 'i', 'd'] = true := by
    cases hx : is_valid_flag t ['-', 'i', 'd']
    · exact absurd hx hf
    · rfl
  simp only [is_valid_flag, Bool.and_eq_true, decide_eq_true_eq] at hf'
  cases t with
  | nil => simp [is_valid_can_id_token] at h
  | cons a rest =>
      cases rest with
      | nil => simp [is_valid_can_id_token] at h
      | cons b rest' =>
          simp only [is_valid_can_id_token, Bool.and_eq_true,
            decide_eq_true_eq] at h
          have ha : a = '0' := h.1.1.1
          have hmap : toLowerChar a :: (b :: rest').map toLowerChar =
              ['-', 'i', 'd'] := by
            simpa using hf'.2
          have heq : toLowerChar a = '-' := by
            have := congrArg List.head? hmap
            simpa using this
          rw [ha] at heq
          exact absurd heq (by decide)

/-! ## Scanner lemmas -/

/-- A line made only of hex-digit tokens scans cleanly: every token is
collected as data, and no flag is set. -/
lemma scan_allHex (toks : List (List Char)) (acc : HexScan)
    (h : ∀ t ∈ toks, is_valid_hex_token t = true) :
    scanHexTokens toks none acc =
      .ok { acc with hexTokens := acc.hexTokens ++ toks } := by
  induction toks generalizing acc with
  | nil => simp [scanHexTokens]
  | cons t rest ih =>
      have ht : is_valid_hex_token t = true := h t (by simp)
      have h1 : is_valid_flag t ['-', 'i', 'd'] = false := allHex_not_flag ht rfl
      have h2 : is_valid_flag t ['-', 't'] = false := allHex_not_flag ht rfl
      have h3 : is_valid_flag t ['-', 'r'] = false := allHex_not_flag ht rfl
      have h4 : ¬ t.head? = some '-' := allHex_head_ne_dash ht
      simp only [scanHexTokens, h1, h2, h3, h4, ht, Bool.false_eq_true,
        if_false, if_true]
      rw [ih _ (fun u hu => h u (by simp [hu]))]
      simp [List.append_assoc]

/-- The scanner never stores an interval below 10 ms: the `-t` argument is
rejected before it is stored. -/
lemma scan_interval_ge (toks : List (List Char)) :
    ∀ skip acc scanOut, 10 ≤ acc.intervalMs →
      scanHexTokens toks skip acc = .ok scanOut → 10 ≤ scanOut.intervalMs := by
  induction toks with
  | nil =>
      intro skip acc scanOut hacc h
      cases skip with
      | none =>
          simp only [scanHexTokens, Except.ok.injEq] at h
          exact h ▸ hacc
      | some r => cases r <;> simp [scanHexTokens] at h
  | cons t rest ih =>
      intro skip acc scanOut hacc h
      match skip with
      | some SkipReason.flagId =>
          rw [scanHexTokens] at h
          by_cases hv : is_valid_can_id_token t
          · rw [if_pos hv] at h
            exact ih none { acc with canId := some (canIdValue t) } scanOut hacc h
          · rw [if_neg hv] at h
            exact absurd h (by simp)
      | some SkipReason.flagT =>
          rw [scanHexTokens] at h
          by_cases hv : is_valid_positive_int t
          · rw [if_pos hv] at h
            by_cases h10 : digitsToNat t < 10
            · rw [if_pos h10] at h
              exact absurd h (by simp)
            · rw [if_neg h10] at h
              exact ih none { acc with intervalMs := digitsToNat t } scanOut
                (Nat.le_of_not_lt h10) h
          · rw [if_neg hv] at h
            exact absurd h (by simp)
      | none =>
          rw [scanHexTokens] at h
          by_cases hid : is_valid_flag t ['-', 'i', 'd'] = true
          · rw [if_pos hid] at h
            exact ih (some SkipReason.flagId) acc scanOut hacc h
          · rw [if_neg hid] at h
            by_cases hT : is_valid_flag t ['-', 't'] = true
            · rw [if_pos hT] at h
              exact ih (some SkipReason.flagT) acc scanOut hacc h
            · rw [if_neg hT] at h
              by_cases hR : is_valid_flag t ['-', 'r'] = true
              · rw [if_pos hR] at h
                exact ih none { acc with startRepeat := true } scanOut hacc h
              · rw [if_neg hR] at h
                by_cases hdash : t.head? = some '-'
                · rw [if_pos hdash] at h
                  exact absurd h (by simp)
                · rw [if_neg hdash] at h
                  by_cases hhex : is_valid_hex_token t = true
                  · rw [if_pos hhex] at h
                    exact ih none { acc with hexTokens := acc.hexTokens ++ [t] }
                      scanOut hacc h
                  · rw [if_neg hhex] at h
                    exact absurd h (by simp)

/-! ## Tokenization and decoding agreement lemmas -/

/-- The concatenation of the tokens of a line is exactly the line with its
whitespace stripped. -/
lemma join_splitTokensAux (cs : List Char) :
    ∀ acc, (splitTokensAux cs acc).flatten =
      acc.reverse ++ cs.filter (fun c => !isSpaceChar c) := by
  induction cs with
  | nil =>
      intro acc
      by_cases ha : acc.isEmpty
      · have : acc = [] := by simpa using ha
        simp [splitTokensAux, this]
      · simp [splitTokensAux, ha]
  | cons c rest ih =>
      intro acc
      by_cases hc : isSpaceChar c
      · by_cases ha : acc.isEmpty
        · have ha' : acc = [] := by simpa using ha
          simp [splitTokensAux, hc, ha', List.filter_cons, ih]
        · simp [splitTokensAux, hc, ha, List.filter_cons, ih]
      · have hc' : isSpaceChar c = false := Bool.eq_false_iff.mpr hc
        simp [splitTokensAux, hc', List.filter_cons, ih (c :: acc)]

/-- Stripping whitespace from a line yields the concatenation of its
tokens. -/
lemma filter_eq_join_tokenize (line : List Char) :
    line.filter (fun c => !isSpaceChar c) = (tokenizeLine line).flatten := by
  rw [tokenizeLine, join_splitTokensAux line []]
  rfl

/-- Joining hex tokens with single spaces and stripping whitespace again
recovers their concatenation. -/
lemma filter_joinSpaces (toks : List (List Char))
    (h : ∀ t ∈ toks, is_valid_hex_token t = true) :
    (joinSpaces toks).filter (fun c => !isSpaceChar c) = toks.flatten := by
  induction toks with
  | nil => rfl
  | cons t rest ih =>
      have hfilt : t.filter (fun c => !isSpaceChar c) = t := by
        refine List.filter_eq_self.mpr ?_
        intro c hc
        have ht := h t (by simp)
        simp only [is_valid_hex_token, Bool.and_eq_true, List.all_eq_true] at ht
        simp [hexDigit_not_space (ht.2 c hc)]
      cases rest with
      | nil => simpa [joinSpaces] using hfilt
      | cons u rest' =>
          have hstep : joinSpaces (t :: u :: rest') =
              t ++ ' ' :: joinSpaces (u :: rest') := rfl
          rw [hstep, List.filter_append, hfilt]
          have : (' ' :: joinSpaces (u :: rest')).filter
              (fun c => !isSpaceChar c) =
              (joinSpaces (u :: rest')).filter (fun c => !isSpaceChar c) := by
            simp [List.filter_cons, isSpaceChar]
          rw [this, ih (fun v hv => h v (by simp [hv]))]
          rfl

/-- On an even-length run of hex digits, the validating decoder agrees with
direct pairwise decoding. -/
lemma decodePairs_allHex (ds : List Char)
    (h : ∀ c ∈ ds, isHexDigitChar c = true) (hlen : ds.length % 2 = 0) :
    decodePairs ds = some (pairDecode ds) := by
  induction ds using decodePairs.induct with
  | case1 => rfl
  | case2 x => simp at hlen
  | case3 hi lo rest hcond ih =>
      have hrest : decodePairs rest = some (pairDecode rest) := by
        refine ih (fun c hc => h c (by simp [hc])) ?_
        have : rest.length % 2 = 0 := by
          have := hlen
          simp only [List.length_cons] at this
          omega
        exact this
      simp only [decodePairs, hcond, if_true, hrest, Option.map_some]
      rfl
  | case4 hi lo rest hcond =>
      have h1 : isHexDigitChar hi = true := h hi (by simp)
      have h2 : isHexDigitChar lo = true := h lo (by simp)
      simp [h1, h2] at hcond

/-- C5: a hex-mode line consisting only of hex-digit tokens decodes, when the
total digit count is even, to exactly the bytes obtained by pairing the
concatenated digits left to right; when the count is odd, the line handler
rejects the line with a parse error and performs no send. -/
theorem hex_only_line_decodes_pairwise (line : List Char)
    (hall : ∀ t ∈ tokenizeLine line, is_valid_hex_token t = true) :
    ((tokenizeLine line).flatten.length % 2 = 0 →
      parse_hex_bytes line = some (pairDecode (tokenizeLine line).flatten)) ∧
    ((tokenizeLine line).flatten.length % 2 = 1 →
      ∀ cfgCanId isCan inl now w,
        (hexModeLine line cfgCanId isCan inl now w).sends = [] ∧
        (hexModeLine line cfgCanId isCan inl now w).err.isSome = true) := by
  have hstrip : line.filter (fun c => !isSpaceChar c) =
      (tokenizeLine line).flatten := filter_eq_join_tokenize line
  have hdigits : ∀ c ∈ (tokenizeLine line).flatten, isHexDigitChar c = true := by
    intro c hc
    rcases List.mem_flatten.mp hc with ⟨t, ht, hct⟩
    have := hall t ht
    simp only [is_valid_hex_token, Bool.and_eq_true, List.all_eq_true] at this
    exact this.2 c hct
  constructor
  · intro heven
    unfold parse_hex_bytes
    rw [hstrip]
    rw [if_neg (by omega)]
    exact decodePairs_allHex _ hdigits heven
  · intro hodd cfgCanId isCan inl now w
    have hscan : hexScanOf line =
        .ok { hexScanInit with hexTokens := tokenizeLine line } := by
      unfold hexScanOf
      exact scan_allHex (tokenizeLine line) hexScanInit hall
    have hjoin : (joinSpaces (tokenizeLine line)).filter
        (fun c => !isSpaceChar c) = (tokenizeLine line).flatten :=
      filter_joinSpaces (tokenizeLine line) hall
    have hne : (joinSpaces (tokenizeLine line)).isEmpty = false := by
      cases hx : (joinSpaces (tokenizeLine line)).isEmpty
      · rfl
      · have : joinSpaces (tokenizeLine line) = [] := by simpa using hx
        rw [this] at hjoin
        have : (tokenizeLine line).flatten.length = 0 := by
          rw [← hjoin]; rfl
        omega
    have hparse : parse_hex_bytes (joinSpaces (tokenizeLine line)) = none := by
      unfold parse_hex_bytes
      rw [hjoin]
      rw [if_pos (by omega)]
    have hdata : hexDataOf { hexScanInit with hexTokens := tokenizeLine line }
        = none := by
      unfold hexDataOf
      simp only [hne, Bool.false_eq_true, if_false]
      exact hparse
    simp only [hexModeLine, hscan, hdata]
    exact ⟨trivial, rfl⟩

/-- C5 witness: `"41 42"` decodes to `[0x41, 0x42]`, and the odd-length line
`"414"` is rejected with no send. -/
theorem hex_only_line_decodes_pairwise_witness :
    parse_hex_bytes ['4', '1', ' ', '4', '2'] = some [0x41, 0x42] ∧
    (hexModeLine ['4', '1', '4'] 0x123 false inlineDefault 0 0).sends = [] := by
  constructor
  · have h := (hex_only_line_decodes_pairwise ['4', '1', ' ', '4', '2']
      (by decide)).1 (by decide)
    rw [h]
    decide
  · exact ((hex_only_line_decodes_pairwise ['4', '1', '4'] (by decide)).2
      (by decide) 0x123 false inlineDefault 0 0).1

/-- From any scanner state, a token list with a bad `-id` makes the scanner
fail. -/
lemma scan_badId (toks : List (List Char)) :
    ∀ skip acc, hasBadId toks = true →
      ∃ msg, scanHexTokens toks skip acc = .error msg := by
  induction toks with
  | nil => intro skip acc h; simp [hasBadId] at h
  | cons t rest ih =>
      intro skip acc h
      match skip with
      | some SkipReason.flagId =>
          by_cases hv : is_valid_can_id_token t
          · have hrest : hasBadId rest = true := by
              have hflag : is_valid_flag t ['-', 'i', 'd'] = false :=
                canId_not_flag_id hv
              simpa [hasBadId, hflag] using h
            rw [scanHexTokens, if_pos hv]
            exact ih none _ hrest
          · exact ⟨_, by rw [scanHexTokens, if_neg hv]⟩
      | some SkipReason.flagT =>
          by_cases hv : is_valid_positive_int t
          · have hrest : hasBadId rest = true := by
              have hflag : is_valid_flag t ['-', 'i', 'd'] = false :=
                posInt_not_flag_id hv
              simpa [hasBadId, hflag] using h
            rw [scanHexTokens, if_pos hv]
            by_cases h10 : digitsToNat t < 10
            · exact ⟨_, by rw [if_pos h10]⟩
            · rw [if_neg h10]
              exact ih none _ hrest
          · exact ⟨_, by rw [scanHexTokens, if_neg hv]⟩
      | none =>
          by_cases hid : is_valid_flag t ['-', 'i', 'd'] = true
          · rw [scanHexTokens, if_pos hid]
            cases rest with
            | nil => exact ⟨_, rfl⟩
            | cons nxt rest' =>
                by_cases hv : is_valid_can_id_token nxt
                · have hrest : hasBadId (nxt :: rest') = true := by
                    simp only [hasBadId, hid, hv, Bool.not_true,
                      Bool.and_false, Bool.false_or] at h
                    simp [hasBadId, canId_not_flag_id hv] at h ⊢
                    exact h
                  exact ih (some SkipReason.flagId) acc hrest
                · exact ⟨_, by rw [scanHexTokens, if_neg hv]⟩
          · have hid' : is_valid_flag t ['-', 'i', 'd'] = false :=
              Bool.eq_false_iff.mpr hid
            have hrest : hasBadId rest = true := by
              simpa [hasBadId, hid'] using h
            rw [scanHexTokens, if_neg hid]
            by_cases hT : is_valid_flag t ['-', 't'] = true
            · rw [if_pos hT]
              exact ih (some SkipReason.flagT) acc hrest
            · rw [if_neg hT]
              by_cases hR : is_valid_flag t ['-', 'r'] = true
              · rw [if_pos hR]
                exact ih none _ hrest
              · rw [if_neg hR]
                by_cases hdash : t.head? = some '-'
                · exact ⟨_, by rw [if_pos hdash]⟩
                · rw [if_neg hdash]
                  by_cases hhex : is_valid_hex_token t = true
                  · rw [if_pos hhex]
                    exact ih none _ hrest
                  · exact ⟨_, by rw [if_neg hhex]⟩

/-- C6: any hex-mode line containing a `-id` token that is not followed by a
`0x`-plus-hex-digits token (including a trailing `-id`) is rejected whole with
a parse error: the inline slot is untouched and no send occurs. -/
theorem bad_id_flag_rejects_line (line : List Char)
    (h : hasBadId (tokenizeLine line) = true) :
    ∀ cfgCanId isCan inl now w,
      (hexModeLine line cfgCanId isCan inl now w).sends = [] ∧
      (hexModeLine line cfgCanId isCan inl now w).err.isSome = true ∧
      (hexModeLine line cfgCanId isCan inl now w).inl = inl := by
  intro cfgCanId isCan inl now w
  obtain ⟨msg, hmsg⟩ := scan_badId (tokenizeLine line) none hexScanInit h
  have hscan : hexScanOf line = .error msg := hmsg
  unfold hexModeLine
  rw [hscan]
  exact ⟨rfl, rfl, rfl⟩

/-- C6 witness: the line `"AA -id"` (trailing `-id`) is rejected with no
send, and `"AA -id 5FF BB"` (argument without `0x` prefix) likewise. -/
theorem bad_id_flag_rejects_line_witness :
    ((hexModeLine ['A', 'A', ' ', '-', 'i', 'd'] 0x123 true inlineDefault 0 0).sends
      = [] ∧
     (hexModeLine ['A', 'A', ' ', '-', 'i', 'd'] 0x123 true inlineDefault 0 0).err.isSome
      = true) ∧
    (hexModeLine ['A', 'A', ' ', '-', 'i', 'd', ' ', '5', 'F', 'F', ' ', 'B', 'B']
      0x123 true inlineDefault 0 0).sends = [] := by
  refine ⟨⟨?_, ?_⟩, ?_⟩
  · exact (bad_id_flag_rejects_line ['A', 'A', ' ', '-', 'i', 'd'] (by decide)
      0x123 true inlineDefault 0 0).1
  · exact (bad_id_flag_rejects_line ['A', 'A', ' ', '-', 'i', 'd'] (by decide)
      0x123 true inlineDefault 0 0).2.1
  · exact (bad_id_flag_rejects_line
      ['A', 'A', ' ', '-', 'i', 'd', ' ', '5', 'F', 'F', ' ', 'B', 'B']
      (by decide) 0x123 true inlineDefault 0 0).1

/-- Any change the dispatch stage makes to the inline slot uses the scanned
interval. -/
lemma hexDispatch_interval_ge (scan : HexScan) (data : List Nat) (cid : Nat)
    (isCan : Bool) (inl : InlineRepeatState) (now : Int) (w : Int)
    (h10 : 10 ≤ scan.intervalMs) :
    (hexDispatch scan data cid isCan inl now w).inl = inl ∨
      10 ≤ (hexDispatch scan data cid isCan inl now w).inl.interval_ms := by
  have h10i : (10 : Int) ≤ (scan.intervalMs : Int) := by exact_mod_cast h10
  unfold hexDispatch
  by_cases hcan : isCan
  · simp only [hcan, if_true]
    by_cases hlen : data.length > 8
    · rw [if_pos hlen]
      left; trivial
    · rw [if_neg hlen]
      by_cases hr : scan.startRepeat
      · simp only [hr, if_true]
        by_cases hw : w < 0
        · rw [if_pos hw]; right; exact h10i
        · rw [if_neg hw]; right; exact h10i
      · have hr2 : scan.startRepeat = false := Bool.eq_false_iff.mpr hr
        simp only [hr2, Bool.false_eq_true, if_false]
        left; trivial
  · have hcan2 : isCan = false := Bool.eq_false_iff.mpr hcan
    simp only [hcan2, Bool.false_eq_true, if_false]
    by_cases hr : scan.startRepeat
    · simp only [hr, if_true]
      by_cases hw : w < 0
      · rw [if_pos hw]; right; exact h10i
      · rw [if_neg hw]; right; exact h10i
    · have hr2 : scan.startRepeat = false := Bool.eq_false_iff.mpr hr
      simp only [hr2, Bool.false_eq_true, if_false]
      left; trivial

/-- Any change the hex-mode handler makes to the inline slot leaves its
interval at 10 ms or more. -/
lemma hexModeLine_interval_ge (line : List Char) (cid : Nat) (isCan : Bool)
    (inl : InlineRepeatState) (now : Int) (w : Int) :
    (hexModeLine line cid isCan inl now w).inl = inl ∨
      10 ≤ (hexModeLine line cid isCan inl now w).inl.interval_ms := by
  cases hscan : hexScanOf line with
  | error msg =>
      simp only [hexModeLine, hscan]
      left; trivial
  | ok scan =>
      have h10 : 10 ≤ scan.intervalMs :=
        scan_interval_ge (tokenizeLine line) none hexScanInit scan
          (by norm_num [hexScanInit]) hscan
      cases hdata : hexDataOf scan with
      | none =>
          simp only [hexModeLine, hscan, hdata]
          left; trivial
      | some data =>
          by_cases hemp : data.isEmpty
          · simp only [hexModeLine, hscan, hdata, hemp, if_true]
            left; trivial
          · have hemp2 : data.isEmpty = false := Bool.eq_false_iff.mpr hemp
            simp only [hexModeLine, hscan, hdata, hemp2, Bool.false_eq_true,
              if_false]
            exact hexDispatch_interval_ge scan data cid isCan inl now w h10

/-- Any change the `/rpt` handler makes to the inline slot leaves its
interval at 10 ms or more. -/
lemma rptCommand_interval_ge (inl : InlineRepeatState) (arg : List Char)
    (isCan : Bool) (cid : Nat) (crlf : Bool) (now : Int) (w : Int) :
    (rptCommand inl arg isCan cid crlf now w).inl = inl ∨
      10 ≤ (rptCommand inl arg isCan cid crlf now w).inl.interval_ms := by
  unfold rptCommand
  by_cases hemp : arg.isEmpty
  · simp only [hemp, if_true]
    left; trivial
  · have hemp' : arg.isEmpty = false := Bool.eq_false_iff.mpr hemp
    simp only [hemp', Bool.false_eq_true, if_false]
    by_cases hms : is_valid_positive_int (splitFirst arg).1 = true
    · simp only [hms, not_true, if_false]
      by_cases htext : (splitFirst arg).2.isEmpty
      · simp only [htext, if_true]
        left; trivial
      · have htext' : (splitFirst arg).2.isEmpty = false :=
          Bool.eq_false_iff.mpr htext
        simp only [htext', Bool.false_eq_true, if_false]
        by_cases h10 : digitsToNat (splitFirst arg).1 < 10
        · rw [if_pos h10]
          left; trivial
        · rw [if_neg h10]
          have h10' : (10 : Int) ≤ (digitsToNat (splitFirst arg).1 : Int) := by
            exact_mod_cast Nat.le_of_not_lt h10
          by_cases hcan : isCan
          · simp only [hcan, if_true]
            by_cases hw : w < 0
            · rw [if_pos hw]; right; exact h10'
            · rw [if_neg hw]; right; exact h10'
          · have hcan' : isCan = false := Bool.eq_false_iff.mpr hcan
            simp only [hcan', Bool.false_eq_true, if_false]
            by_cases hw : w < 0
            · rw [if_pos hw]; right; exact h10'
            · rw [if_neg hw]; right; exact h10'
    · have hms' : is_valid_positive_int (splitFirst arg).1 = false :=
        Bool.eq_false_iff.mpr hms
      simp only [hms', Bool.false_eq_true, not_false_iff, if_true]
      left; trivial

/-- C1 (amended): the hex-mode `-t` flag and `/rpt` enforce the 10 ms floor,
so every arming of the inline slot leaves `interval_ms ≥ 10`; but the
`/p N -r -t MS` path applies the requested interval with no floor, so a
preset slot can be enabled with `interval_ms` below 10 (here 5). -/
theorem interval_floor_inline_only :
    (∀ line cid isCan inl now w,
      (hexModeLine line cid isCan inl now w).inl = inl ∨
        10 ≤ (hexModeLine line cid isCan inl now w).inl.interval_ms) ∧
    (∀ inl arg isCan cid crlf now w,
      (rptCommand inl arg isCan cid crlf now w).inl = inl ∨
        10 ≤ (rptCommand inl arg isCan cid crlf now w).inl.interval_ms) ∧
    ((pCommandTokens (List.replicate 10 presetDefault) inlineDefault
        [['1'], ['-', 'r'], ['-', 't'], ['5']] 0).presets[0]?).map
      (fun s => (s.enabled, s.interval_ms)) = some (true, 5) := by
  refine ⟨?_, ?_, by decide⟩
  · intro line cid isCan inl now w
    exact hexModeLine_interval_ge line cid isCan inl now w
  · intro inl arg isCan cid crlf now w
    exact rptCommand_interval_ge inl arg isCan cid crlf now w

/-- C1 counterexample: `/p 1 -r -t 5` enables preset slot 1 with
`interval_ms = 5`, below the claimed 10 ms creation floor. -/
theorem interval_floor_cex :
    ((pCommandTokens (List.replicate 10 presetDefault) inlineDefault
        [['1'], ['-', 'r'], ['-', 't'], ['5']] 0).presets[0]?).map
      (fun s => (s.enabled, s.interval_ms)) = some (true, 5) ∧
    ¬ ((10 : Int) ≤ 5) := by
  exact ⟨by decide, by decide⟩

/-! ## `updateAt` lemmas -/

lemma updateAt_getElem_ne {α : Type} (i j : Nat) (f : α → α) (l : List α)
    (h : j ≠ i) : (updateAt i f l)[j]? = l[j]? := by
  induction l generalizing i j with
  | nil => cases i <;> rfl
  | cons x xs ih =>
      cases i with
      | zero =>
          cases j with
          | zero => exact absurd rfl h
          | succ k => simp [updateAt]
      | succ m =>
          cases j with
          | zero => simp [updateAt]
          | succ k =>
              have : k ≠ m := fun hk => h (by rw [hk])
              simpa [updateAt] using ih m k this

lemma updateAt_getElem_self {α : Type} (i : Nat) (f : α → α) (l : List α) :
    (updateAt i f l)[i]? = (l[i]?).map f := by
  induction l generalizing i with
  | nil => cases i <;> rfl
  | cons x xs ih =>
      cases i with
      | zero => simp [updateAt]
      | succ m => simpa [updateAt] using ih m

/-- C2 (amended): `/p N -r [-t MS]` (any flag mix with `-r` and without
`-nr`) enables exactly slot N — re-armed with `next_fire = now + interval` —
leaves the other preset slots and the inline slot unchanged, and performs NO
immediate send; the first transmission only happens when the slot next
fires. -/
theorem p_r_arms_slot_without_send (presets : List PresetRepeatState)
    (inl : InlineRepeatState) (t0 : List Char) (rest : List (List Char))
    (N : Int) (now : Int)
    (hN : stoiOpt t0 = some N) (h1 : 1 ≤ N) (h2 : N ≤ 10)
    (hstop : (scanPFlags rest ⟨false, false, -1⟩).stopR = false)
    (hstart : (scanPFlags rest ⟨false, false, -1⟩).startR = true) :
    (pCommandTokens presets inl (t0 :: rest) now).inl = inl ∧
    (pCommandTokens presets inl (t0 :: rest) now).sends = 0 ∧
    (pCommandTokens presets inl (t0 :: rest) now).presets =
      updateAt (N - 1).toNat
        (armPresetSlot (scanPFlags rest ⟨false, false, -1⟩).custom now)
        presets ∧
    (∀ j, j ≠ (N - 1).toNat →
      ((pCommandTokens presets inl (t0 :: rest) now).presets)[j]? =
        presets[j]?) ∧
    (((pCommandTokens presets inl (t0 :: rest) now).presets)[(N - 1).toNat]? =
      (presets[(N - 1).toNat]?).map
        (armPresetSlot (scanPFlags rest ⟨false, false, -1⟩).custom now)) ∧
    (∀ c s, (armPresetSlot c now s).enabled = true ∧
      (armPresetSlot c now s).next_fire =
        now + (armPresetSlot c now s).interval_ms) := by
  have hmain : pCommandTokens presets inl (t0 :: rest) now =
      ⟨updateAt (N - 1).toNat
        (armPresetSlot (scanPFlags rest ⟨false, false, -1⟩).custom now)
        presets, inl, 0, none⟩ := by
    simp only [pCommandTokens]
    rw [hN]
    simp only [Option.getD_some]
    rw [if_neg (by omega)]
    simp only [hstop, Bool.false_eq_true, if_false, hstart, if_true]
  refine ⟨by rw [hmain], by rw [hmain], by rw [hmain], ?_, ?_, ?_⟩
  · intro j hj
    rw [hmain]
    exact updateAt_getElem_ne _ j _ presets hj
  · rw [hmain]
    exact updateAt_getElem_self _ _ presets
  · intro c s
    unfold armPresetSlot
    by_cases hc : c > 0 <;> simp [hc]

/-- C2 witness: `/p 2 -r` on the default state arms slot 2 with no send. -/
theorem p_r_arms_slot_without_send_witness :
    (pCommandTokens (List.replicate 10 presetDefault) inlineDefault
      [['2'], ['-', 'r']] 5).sends = 0 ∧
    ((pCommandTokens (List.replicate 10 presetDefault) inlineDefault
      [['2'], ['-', 'r']] 5).presets)[1]? =
      ((List.replicate 10 presetDefault)[1]?).map
        (armPresetSlot (scanPFlags [['-', 'r']] ⟨false, false, -1⟩).custom 5) := by
  have h := p_r_arms_slot_without_send (List.replicate 10 presetDefault)
    inlineDefault ['2'] [['-', 'r']] 2 5 (by decide) (by decide) (by decide)
    (by decide) (by decide)
  exact ⟨h.2.1, by simpa using h.2.2.2.2.1⟩

/-- C2 counterexample: `/p 1 -r` arms preset 1 (the slot becomes enabled) yet
performs zero immediate sends, not the claimed exactly one. -/
theorem p_r_arm_no_immediate_send_cex :
    (pCommandTokens (List.replicate 10 presetDefault) inlineDefault
      [['1'], ['-', 'r']] 0).sends = 0 ∧
    ((pCommandTokens (List.replicate 10 presetDefault) inlineDefault
      [['1'], ['-', 'r']] 0).presets[0]?).map (fun s => s.enabled) =
      some true := by
  exact ⟨by decide, by decide⟩

/-- C3 (amended): the hex-mode inline path rejects a CAN payload longer than
8 bytes with a parse error before any frame write; but the transport-layer
`send_can_bytes` clamps the dlc to `min(len, 8)` and silently truncates the
data, and the `/hex` command on CAN passes oversized payloads straight to it
with no rejection. -/
theorem can_oversize_reject_vs_truncate :
    (∀ line cid inl now w scan data,
      hexScanOf line = .ok scan →
      hexDataOf scan = some data →
      8 < data.length →
      hexModeLine line cid true inl now w =
        ⟨inl, [], some "CAN data max 8 bytes"⟩) ∧
    (∀ arg cid (data : List Nat),
      parse_hex_bytes arg = some data → 8 < data.length →
      hexCommand arg true cid =
        ([.can ⟨cid, 8, data.take 8⟩], none)) := by
  constructor
  · intro line cid inl now w scan data hscan hdata hlen
    have hne : data.isEmpty = false := by
      cases data with
      | nil => simp at hlen
      | cons x xs => rfl
    simp only [hexModeLine, hscan, hdata, hne, Bool.false_eq_true, if_false]
    unfold hexDispatch
    simp only [if_true, hlen, if_pos]
  · intro arg cid data hparse hlen
    have hne : data.isEmpty = false := by
      cases data with
      | nil => simp at hlen
      | cons x xs => rfl
    unfold hexCommand
    rw [hparse]
    simp only [hne, Bool.false_eq_true, if_false, if_true]
    have hmin : min data.length 8 = 8 := min_eq_right (by omega)
    unfold send_can_bytes_frame
    rw [hmin]

/-- C3 counterexample: `/hex AA BB CC DD EE FF 00 11 22` (9 bytes) on CAN is
not rejected; `send_can_bytes` silently truncates it to an 8-byte frame. -/
theorem can_oversize_truncate_cex :
    hexCommand
      ['A', 'A', ' ', 'B', 'B', ' ', 'C', 'C', ' ', 'D', 'D', ' ', 'E', 'E',
       ' ', 'F', 'F', ' ', '0', '0', ' ', '1', '1', ' ', '2', '2'] true 0x123 =
      ([.can ⟨0x123, 8, [0xAA, 0xBB, 0xCC, 0xDD, 0xEE, 0xFF, 0x00, 0x11]⟩],
        none) := by
  decide

/-- C3 witness: a single 18-digit hex token (9 bytes) is rejected by the
hex-mode inline path, while the `/hex` command path truncates it. -/
theorem can_oversize_reject_vs_truncate_witness :
    hexModeLine
      ['A', 'A', 'B', 'B', 'C', 'C', 'D', 'D', 'E', 'E', 'F', 'F', '0', '0',
       '1', '1', '2', '2'] 0x123 true inlineDefault 0 0 =
      ⟨inlineDefault, [], some "CAN data max 8 bytes"⟩ ∧
    hexCommand
      ['A', 'A', 'B', 'B', 'C', 'C', 'D', 'D', 'E', 'E', 'F', 'F', '0', '0',
       '1', '1', '2', '2'] true 0x123 =
      ([.can ⟨0x123, 8, [0xAA, 0xBB, 0xCC, 0xDD, 0xEE, 0xFF, 0x00, 0x11]⟩],
        none) := by
  have h := can_oversize_reject_vs_truncate
  refine ⟨h.1 _ 0x123 inlineDefault 0 0
    ⟨[['A', 'A', 'B', 'B', 'C', 'C', 'D', 'D', 'E', 'E', 'F', 'F', '0', '0',
       '1', '1', '2', '2']], none, false, 1000⟩
    [0xAA, 0xBB, 0xCC, 0xDD, 0xEE, 0xFF, 0x00, 0x11, 0x22]
    (by rfl) (by rfl) (by decide), ?_⟩
  exact h.2 _ 0x123 [0xAA, 0xBB, 0xCC, 0xDD, 0xEE, 0xFF, 0x00, 0x11, 0x22]
    (by decide) (by decide)

/-- After a failed write, the dispatch stage either left the inline slot
alone or disabled it. -/
lemma hexDispatch_failed_write (scan : HexScan) (data : List Nat) (cid : Nat)
    (isCan : Bool) (inl : InlineRepeatState) (now : Int) (w : Int)
    (hw : w < 0) :
    (hexDispatch scan data cid isCan inl now w).inl = inl ∨
      (hexDispatch scan data cid isCan inl now w).inl.enabled = false := by
  unfold hexDispatch
  by_cases hcan : isCan
  · simp only [hcan, if_true]
    by_cases hlen : data.length > 8
    · rw [if_pos hlen]; left; trivial
    · rw [if_neg hlen]
      by_cases hr : scan.startRepeat
      · simp only [hr, if_true, if_pos hw]
        right; trivial
      · have hr2 : scan.startRepeat = false := Bool.eq_false_iff.mpr hr
        simp only [hr2, Bool.false_eq_true, if_false]
        left; trivial
  · have hcan2 : isCan = false := Bool.eq_false_iff.mpr hcan
    simp only [hcan2, Bool.false_eq_true, if_false]
    by_cases hr : scan.startRepeat
    · simp only [hr, if_true, if_pos hw]
      right; trivial
    · have hr2 : scan.startRepeat = false := Bool.eq_false_iff.mpr hr
      simp only [hr2, Bool.false_eq_true, if_false]
      left; trivial

/-- C9: when the immediate first send of an inline arming fails (negative
write result), the handlers clear the inline slot's enabled flag before
returning: both for hex-mode `-r` lines and for `/rpt`; operations that do
not arm leave the slot untouched. -/
theorem failed_first_send_disables_inline (line arg : List Char) (cid : Nat)
    (isCan crlf : Bool) (inl : InlineRepeatState) (now w : Int) (hw : w < 0) :
    ((hexModeLine line cid isCan inl now w).inl = inl ∨
      (hexModeLine line cid isCan inl now w).inl.enabled = false) ∧
    ((rptCommand inl arg isCan cid crlf now w).inl = inl ∨
      (rptCommand inl arg isCan cid crlf now w).inl.enabled = false) := by
  constructor
  · cases hscan : hexScanOf line with
    | error msg =>
        simp only [hexModeLine, hscan]
        left; trivial
    | ok scan =>
        cases hdata : hexDataOf scan with
        | none =>
            simp only [hexModeLine, hscan, hdata]
            left; trivial
        | some data =>
            by_cases hemp : data.isEmpty
            · simp only [hexModeLine, hscan, hdata, hemp, if_true]
              left; trivial
            · have hemp2 : data.isEmpty = false := Bool.eq_false_iff.mpr hemp
              simp only [hexModeLine, hscan, hdata, hemp2, Bool.false_eq_true,
                if_false]
              exact hexDispatch_failed_write scan data cid isCan inl now w hw
  · unfold rptCommand
    by_cases hemp : arg.isEmpty
    · simp only [hemp, if_true]
      left; trivial
    · have hemp2 : arg.isEmpty = false := Bool.eq_false_iff.mpr hemp
      simp only [hemp2, Bool.false_eq_true, if_false]
      by_cases hms : is_valid_positive_int (splitFirst arg).1 = true
      · simp only [hms, not_true, if_false]
        by_cases htext : (splitFirst arg).2.isEmpty
        · simp only [htext, if_true]
          left; trivial
        · have htext2 : (splitFirst arg).2.isEmpty = false :=
            Bool.eq_false_iff.mpr htext
          simp only [htext2, Bool.false_eq_true, if_false]
          by_cases h10 : digitsToNat (splitFirst arg).1 < 10
          · rw [if_pos h10]
            left; trivial
          · rw [if_neg h10]
            by_cases hcan : isCan
            · simp only [hcan, if_true, if_pos hw]
              right; trivial
            · have hcan2 : isCan = false := Bool.eq_false_iff.mpr hcan
              simp only [hcan2, Bool.false_eq_true, if_false, if_pos hw]
              right; trivial
      · have hms2 : is_valid_positive_int (splitFirst arg).1 = false :=
          Bool.eq_false_iff.mpr hms
        simp only [hms2, Bool.false_eq_true, not_false_iff, if_true]
        left; trivial

/-- C9 witness: arming `AA -r` in serial hex mode with a failed write leaves
the inline slot non-enabled or untouched, as does `/rpt 50 hello`. -/
theorem failed_first_send_disables_inline_witness :
    ((hexModeLine ['A', 'A', ' ', '-', 'r'] 0x123 false inlineDefault 0 (-1)).inl
        = inlineDefault ∨
      (hexModeLine ['A', 'A', ' ', '-', 'r'] 0x123 false inlineDefault 0
        (-1)).inl.enabled = false) ∧
    ((rptCommand inlineDefault
        ['5', '0', ' ', 'h', 'e', 'l', 'l', 'o'] false 0x123 true 0
        (-1)).inl = inlineDefault ∨
      (rptCommand inlineDefault
        ['5', '0', ' ', 'h', 'e', 'l', 'l', 'o'] false 0x123 true 0
        (-1)).inl.enabled = false) :=
  failed_first_send_disables_inline ['A', 'A', ' ', '-', 'r']
    ['5', '0', ' ', 'h', 'e', 'l', 'l', 'o'] 0x123 false true inlineDefault 0
    (-1) (by decide)

/-- C10: in text mode on CAN, a line longer than 8 characters is not
rejected: a warning is flagged, the payload is cut to its first 8 bytes and
that truncated frame is sent; `/rpt` on CAN likewise silently cuts the text
payload to 8 characters before arming and sending. -/
theorem can_text_truncates_to_8 (line : List Char) (cid : Nat) (crlf : Bool)
    (w : Int) (hlen : 8 < line.length) (hw : 0 ≤ w) :
    (textModeLine line true cid crlf w).warned = true ∧
    (textModeLine line true cid crlf w).sends =
      [.can ⟨cid, 8, (line.take 8).map Char.toNat⟩] ∧
    (textModeLine line true cid crlf w).err = none ∧
    (∀ inl (arg msStr text : List Char) now,
      splitFirst arg = (msStr, text) → arg.isEmpty = false →
      is_valid_positive_int msStr = true → 10 ≤ digitsToNat msStr →
      8 < text.length →
      (rptCommand inl arg true cid crlf now w).inl.enabled = true ∧
      (rptCommand inl arg true cid crlf now w).inl.text_data = text.take 8 ∧
      (rptCommand inl arg true cid crlf now w).sends =
        [.can ⟨cid, 8, (text.take 8).map Char.toNat⟩]) := by
  have htake : ∀ (t : List Char), 8 < t.length → (t.take 8).length = 8 := by
    intro t ht
    rw [List.length_take]
    omega
  have hwneg : ¬ w < 0 := not_lt.mpr hw
  refine ⟨?_, ?_, ?_, ?_⟩
  · unfold textModeLine
    simp only [if_true, hlen, decide_eq_true_eq]
  · unfold textModeLine
    simp only [if_true, hlen, if_pos]
    rw [htake line hlen]
  · unfold textModeLine
    simp only [if_true, if_neg hwneg]
  · intro inl arg msStr text now hsplit hargne hms h10 htextlen
    have htextne : text.isEmpty = false := by
      cases text with
      | nil => simp at htextlen
      | cons x xs => rfl
    unfold rptCommand
    simp only [hargne, Bool.false_eq_true, if_false, hsplit, hms, not_true,
      htextne, if_false, if_neg (Nat.not_lt.mpr h10), if_true, if_pos,
      if_neg hwneg]
    refine ⟨trivial, ?_, ?_⟩
    · simp only [htextlen, if_pos]
    · simp only [htextlen, if_pos]
      rw [htake text htextlen]

/-- C10 witness: the 10-character text line `helloworld` is truncated to
8 bytes with a warning, and `/rpt 50 helloworld` arms with the cut payload. -/
theorem can_text_truncates_to_8_witness :
    (textModeLine ['h', 'e', 'l', 'l', 'o', 'w', 'o', 'r', 'l', 'd'] true
      0x123 true 0).warned = true ∧
    (rptCommand inlineDefault
      ['5', '0', ' ', 'h', 'e', 'l', 'l', 'o', 'w', 'o', 'r', 'l', 'd'] true
      0x123 true 7 0).inl.text_data =
      ['h', 'e', 'l', 'l', 'o', 'w', 'o', 'r'] := by
  have h := can_text_truncates_to_8
    ['h', 'e', 'l', 'l', 'o', 'w', 'o', 'r', 'l', 'd'] 0x123 true 0
    (by decide) (by decide)
  refine ⟨h.1, ?_⟩
  have h2 := h.2.2.2 inlineDefault
    ['5', '0', ' ', 'h', 'e', 'l', 'l', 'o', 'w', 'o', 'r', 'l', 'd']
    ['5', '0'] ['h', 'e', 'l', 'l', 'o', 'w', 'o', 'r', 'l', 'd'] 7
    (by decide) (by decide) (by decide) (by decide) (by decide)
  exact h2.2.1

/-- C8 witness: with nothing armed the timeout is the 100 ms baseline; at a
concrete armed state the timeout equals the clamped minimum deadline and
stays at most 100 ms. -/
theorem poll_timeout_is_clamped_min_deadline_witness :
    computeTimeout inlineDefault (List.replicate 10 presetDefault) 0 = 100 ∧
    computeTimeout exInline exPresets 5 = specTimeout exInline exPresets 5 ∧
    computeTimeout exInline exPresets 5 ≤ 100 :=
  ⟨(poll_timeout_is_clamped_min_deadline inlineDefault
      (List.replicate 10 presetDefault) 0).2.2 (by decide),
    (poll_timeout_is_clamped_min_deadline exInline exPresets 5).1,
    (poll_timeout_is_clamped_min_deadline exInline exPresets 5).2.1⟩

end Adamcom
